import Mathlib

/-!
Shallow embedding of the onlyfans-dl repository.

Source files embedded:
* onlyfans_dl/client/structs.py  — record shapes and the normalizer family,
* onlyfans_dl/client/client.py   — request signing, paginated enumeration,
  high-water-mark reads and the download ledger,
* onlyfans_dl/__main__.py        — the per-account fetch-phase fan-in.

Modelling conventions:
* Python ints are Int; optional fields are Option; a Python runtime error
  (TypeError, AttributeError, IndexError, raised ScrapingException) is the
  error branch of an Except Unit result.
* msgspec structs become Lean structures with the same field names.  A field
  declared as a required str but fed a possibly-None value by the code is
  modelled as Option String, since msgspec does not type-check construction.
* The price field is declared int | float | None; the code consumes only its
  truthiness, so it is modelled as Option Int (truthy iff present and nonzero).
* Library calls that are not code of this repository are modelled at their
  interface: hashlib.sha1 hex digests and datetime strptime-to-Unix-seconds
  conversion are passed in as function parameters (sha1hex, parseTs), and the
  remote server is a pure value (the list of responses it would deliver, in
  request order); an offset-paginated endpoint is a list of pages, where the
  end of the list stands for the first empty response.
-/

namespace OnlyFansDL

/-- Python truthiness of an optional string: None and the empty string are
falsy, any other string is truthy. -/
def strOptTruthy : Option String → Bool
  | none => false
  | some s => !(s == "")

/-- Python truthiness of an optional list: None and the empty list are falsy. -/
def listOptTruthy {α : Type} : Option (List α) → Bool
  | none => false
  | some l => !l.isEmpty

/-- Python truthiness of the price field (int | float | None): None and zero
are falsy. -/
def priceTruthy : Option Int → Bool
  | none => false
  | some p => !(p == 0)

/-- User struct from structs.py: id, username, name, avatar, header. -/
structure User where
  id : Int
  username : Option String
  name : Option String
  avatar : Option String
  header : Option String
  deriving DecidableEq

/-- An element of the preview list of a Post, declared list[int | str]. -/
inductive PreviewEntry where
  | pint (i : Int)
  | pstr (s : String)
  deriving DecidableEq

/-- Python membership test media.id in preview for an int id: an int compares
equal only to int entries, never to str entries. -/
def previewHasId (pv : List PreviewEntry) (mediaId : Int) : Bool :=
  pv.any fun e =>
    match e with
    | .pint i => i == mediaId
    | .pstr _ => false

/-- Post.Media.Source struct: source url (nullable), width, height, duration. -/
structure Post.Media.Source where
  source : Option String
  width : Int
  height : Int
  duration : Int
  deriving DecidableEq

/-- Post.Media struct: id, type, canView, source. -/
structure Post.Media where
  id : Int
  type : String
  can_view : Bool
  source : Post.Media.Source
  deriving DecidableEq

/-- Post struct from structs.py.  The fields after posted_at_precise are
defaulted to None by the source (reported posts omit them). -/
structure Post where
  id : Int
  posted_at : String
  posted_at_precise : String
  expired_at : Option String := none
  author : Option User := none
  raw_text : Option String := none
  price : Option Int := none
  is_archived : Option Bool := none
  media : Option (List Post.Media) := none
  preview : Option (List PreviewEntry) := none
  deriving DecidableEq

/-- Message.Media.Info.Source struct: width and height only. -/
structure Message.Media.Source where
  width : Int
  height : Int
  deriving DecidableEq

/-- Message.Media.Info struct wrapping the source geometry. -/
structure Message.Media.Info where
  source : Message.Media.Source
  deriving DecidableEq

/-- Message.Media struct: id, canView, type, src (nullable), duration, info. -/
structure Message.Media where
  id : Int
  can_view : Bool
  type : String
  src : Option String
  duration : Int
  info : Message.Media.Info
  deriving DecidableEq

/-- Message struct from structs.py; all fields are required by the decoder. -/
structure Message where
  text : Option String
  price : Int
  media : List Message.Media
  previews : List Int
  from_user : User
  id : Int
  created_at : String
  deriving DecidableEq

/-- Messages page struct: the list field and hasMore. -/
structure Messages where
  messages : List Message
  has_more : Bool
  deriving DecidableEq

/-- Story.Media.Source struct: source url (nullable), width, height, duration. -/
structure Story.Media.Source where
  source : Option String
  width : Int
  height : Int
  duration : Int
  deriving DecidableEq

/-- Story.Media struct: id, type, canView, source. -/
structure Story.Media where
  id : Int
  type : String
  can_view : Bool
  source : Story.Media.Source
  deriving DecidableEq

/-- Story.Question struct, flattened through its entity wrapper to the text. -/
structure Story.Question.Entity where
  text : String
  deriving DecidableEq

/-- Story.Question struct wrapping an entity. -/
structure Story.Question where
  entity : Story.Question.Entity
  deriving DecidableEq

/-- Story struct from structs.py. -/
structure Story where
  id : Int
  user_id : Int
  created_at : String
  media : List Story.Media
  question : Option Story.Question
  deriving DecidableEq

/-- NormalizedMedia struct from structs.py.  The text and url fields are
declared str but receive possibly-None values (raw_text, source.source), so
they are Option String here. -/
structure NormalizedMedia where
  user_id : Int
  source_type : String
  source_id : Int
  id : Int
  file_type : String
  created_at : String
  value : String
  text : Option String
  width : Int
  height : Int
  duration : Int
  url : Option String
  expired_at : Option String := none
  highlight_category : Option String := none
  deriving DecidableEq

/-- Loop body of normalize_post_media: walk the media entries, skip entries
whose canView is false, and build one NormalizedMedia per remaining entry.
Accessing post.author.id when author is None raises AttributeError, modelled
as the error branch. -/
def normalizePostLoop (post : Post) : List Post.Media → Except Unit (List NormalizedMedia)
  | [] => .ok []
  | media :: rest =>
    if !media.can_view then normalizePostLoop post rest
    else
      match post.author with
      | none => .error ()
      | some author =>
        match normalizePostLoop post rest with
        | .error e => .error e
        | .ok tail =>
        .ok ({ user_id := author.id
               source_type := "posts"
               source_id := post.id
               id := media.id
               file_type := media.type
               created_at := post.posted_at
               value := if priceTruthy post.price then "paid" else "free"
               text := post.raw_text
               width := media.source.width
               height := media.source.height
               duration := media.source.duration
               url := media.source.source } :: tail)

/-- normalize_post_media from structs.py lines 201-225: return nothing when
the post has no media or is expired while skip_temporary is set, otherwise
normalize the viewable entries. -/
def normalize_post_media (post : Post) (skip_temporary : Bool) : Except Unit (List NormalizedMedia) :=
  if !(listOptTruthy post.media) || (strOptTruthy post.expired_at && skip_temporary) then .ok []
  else normalizePostLoop post (post.media.getD [])

/-- Price tag of one archived media entry, structs.py line 243: paid if the
price is truthy and the entry id is not in the preview list.  When the price
is truthy and preview is None, the Python membership test raises TypeError,
modelled as the error branch. -/
def archivedValue (post : Post) (mediaId : Int) : Except Unit String :=
  if priceTruthy post.price then
    match post.preview with
    | none => .error ()
    | some pv => .ok (if !(previewHasId pv mediaId) then "paid" else "free")
  else .ok "free"

/-- Loop body of normalize_archived_post_media, analogous to the post loop
but tagging with archivedValue and source_type archived. -/
def normalizeArchivedLoop (post : Post) : List Post.Media → Except Unit (List NormalizedMedia)
  | [] => .ok []
  | media :: rest =>
    if !media.can_view then normalizeArchivedLoop post rest
    else
      match post.author with
      | none => .error ()
      | some author =>
        match archivedValue post media.id with
        | .error e => .error e
        | .ok v =>
        match normalizeArchivedLoop post rest with
        | .error e => .error e
        | .ok tail =>
        .ok ({ user_id := author.id
               source_type := "archived"
               source_id := post.id
               id := media.id
               file_type := media.type
               created_at := post.posted_at
               value := v
               text := post.raw_text
               width := media.source.width
               height := media.source.height
               duration := media.source.duration
               url := media.source.source } :: tail)

/-- normalize_archived_post_media from structs.py lines 227-251. -/
def normalize_archived_post_media (post : Post) (skip_temporary : Bool) : Except Unit (List NormalizedMedia) :=
  if !(listOptTruthy post.media) || (strOptTruthy post.expired_at && skip_temporary) then .ok []
  else normalizeArchivedLoop post (post.media.getD [])

/-- Loop body of normalize_message_media: one item per viewable entry, paid
iff the message price is truthy and the entry id is absent from previews. -/
def normalizeMessageLoop (message : Message) : List Message.Media → List NormalizedMedia
  | [] => []
  | media :: rest =>
    if !media.can_view then normalizeMessageLoop message rest
    else
      { user_id := message.from_user.id
        source_type := "messages"
        source_id := message.id
        id := media.id
        file_type := media.type
        created_at := message.created_at
        value := if !(message.price == 0) && !(message.previews.contains media.id) then "paid" else "free"
        text := message.text
        width := media.info.source.width
        height := media.info.source.height
        duration := media.duration
        url := media.src } :: normalizeMessageLoop message rest

/-- normalize_message_media from structs.py lines 253-274; total, since every
field it reads is required by the decoder. -/
def normalize_message_media (message : Message) : List NormalizedMedia :=
  normalizeMessageLoop message message.media

/-- Loop body of normalize_story_media, structs.py lines 278-296.  Entries
whose canView is false are skipped; for every viewable entry the source
constructs NormalizedMedia without its required value field, so the call
raises TypeError (missing required argument), modelled as the error branch. -/
def normalizeStoryLoop : List Story.Media → Except Unit (List NormalizedMedia)
  | [] => .ok []
  | media :: rest =>
    if !media.can_view then normalizeStoryLoop rest
    else .error ()

/-- normalize_story_media from structs.py lines 276-297.  Because the
NormalizedMedia construction omits the required value field, the function
raises on the first viewable media entry and only ever returns the empty
list otherwise. -/
def normalize_story_media (story : Story) (highlight_category : Option String) : Except Unit (List NormalizedMedia) :=
  normalizeStoryLoop story.media

/-- One row of the per-user media table created in download_media: columns
source_type, timestamp, source_id, media_id with primary key
(source_type, source_id, media_id). -/
structure LedgerRow where
  source_type : String
  timestamp : Int
  source_id : Int
  media_id : Int
  deriving DecidableEq

/-- Primary-key equality of a ledger row against a media identity key. -/
def rowKeyMatches (row : LedgerRow) (sourceType : String) (sourceId mediaId : Int) : Bool :=
  row.source_type == sourceType && row.source_id == sourceId && row.media_id == mediaId

/-- Ledger step taken by the download loop for one media item (client.py
lines 548-583, file transfer abstracted away): if a row with the same
identity key exists the item is skipped, otherwise one new row is inserted. -/
def recordMedia (db : List LedgerRow) (sourceType : String) (timestamp sourceId mediaId : Int) : List LedgerRow :=
  if db.any (fun row => rowKeyMatches row sourceType sourceId mediaId) then db
  else db ++ [{ source_type := sourceType, timestamp := timestamp, source_id := sourceId, media_id := mediaId }]

/-- Number of ledger rows carrying a given media identity key. -/
def countKey (db : List LedgerRow) (sourceType : String) (sourceId mediaId : Int) : Nat :=
  db.countP (fun row => rowKeyMatches row sourceType sourceId mediaId)

/-- High-water-mark read performed at the top of each enumeration (client.py
lines 225-231 and its three clones): the state db is None when the sqlite
store is missing or unreadable (sqlite3.OperationalError, caught and ignored,
leaving the initial 0); otherwise the SQL max(timestamp) over the rows of the
requested source type is taken, NULL (empty set) degrading to 0 through the
or-default. -/
def highWaterMark (db : Option (List LedgerRow)) (sourceType : String) : Int :=
  match db with
  | none => 0
  | some rows => (((rows.filter (fun r => r.source_type == sourceType)).map (fun r => r.timestamp)).max?).getD 0

/-- Timestamp cutoff test used by every enumeration loop: the record survives
iff its parsed timestamp strictly exceeds the high-water mark.  parseTs stands
for the strptime + timestamp conversion of client.py. -/
def postTsGT (parseTs : String → Int) (hwm : Int) (post : Post) : Bool :=
  hwm < parseTs post.posted_at

/-- Guard of client.py line 250: the post is normalized only when its media
list is truthy and some entry is viewable. -/
def postGuard (post : Post) : Bool :=
  listOptTruthy post.media && (post.media.getD []).any (fun m => m.can_view)

/-- Outcome of scanning one decoded page of posts: more means the loop fell
off the end of the page and continues with the next offset, halt means a
record at or below the high-water mark was reached and the function returned,
fail means normalization raised. -/
inductive ScanOut where
  | more (l : List NormalizedMedia)
  | halt (l : List NormalizedMedia)
  | fail
  deriving DecidableEq

/-- Inner for-loop of get_post_media_by_id (client.py lines 248-253) over one
decoded page, yielding the media contributed by this page and whether the
enumeration stops here. -/
def scanPostPage (parseTs : String → Int) (skipTemp : Bool) (hwm : Int) : List Post → ScanOut
  | [] => .more []
  | post :: rest =>
    if postTsGT parseTs hwm post then
      if postGuard post then
        match normalize_post_media post skipTemp with
        | .error _ => .fail
        | .ok l =>
          match scanPostPage parseTs skipTemp hwm rest with
          | .more l2 => .more (l ++ l2)
          | .halt l2 => .halt (l ++ l2)
          | .fail => .fail
      else scanPostPage parseTs skipTemp hwm rest
    else .halt []

/-- While-loop of get_post_media_by_id (client.py lines 234-258) over the
successive page responses, also counting the requests issued.  The end of the
pages list models the first empty response, which costs one request and
breaks the loop; a record at or below the high-water mark returns without
further requests. -/
def fetchPostPages (parseTs : String → Int) (skipTemp : Bool) (hwm : Int) : List (List Post) → Except Unit (List NormalizedMedia) × Nat
  | [] => (.ok [], 1)
  | page :: rest =>
    if page.isEmpty then (.ok [], 1)
    else
      match scanPostPage parseTs skipTemp hwm page with
      | .fail => (.error (), 1)
      | .halt l => (.ok l, 1)
      | .more l =>
        let r := fetchPostPages parseTs skipTemp hwm rest
        (r.1.map (fun l2 => l ++ l2), r.2 + 1)

/-- get_post_media_by_id from client.py lines 210-258: read the posts
high-water mark from the per-user store, then run the offset-paginated
enumeration over the pages the server would deliver.  Returns the normalized
media (or the raised error) and the number of requests issued. -/
def get_post_media_by_id (parseTs : String → Int) (skipTemp : Bool) (db : Option (List LedgerRow)) (pages : List (List Post)) : Except Unit (List NormalizedMedia) × Nat :=
  fetchPostPages parseTs skipTemp (highWaterMark db "posts") pages

/-- Story scan of get_story_media_by_id (client.py lines 477-482): walk the
reversed response; a story above the high-water mark contributes its
normalized media, the first story at or below it returns what was
accumulated. -/
def scanStories (parseTs : String → Int) (hwm : Int) (acc : List NormalizedMedia) : List Story → Except Unit (List NormalizedMedia)
  | [] => .ok acc
  | story :: rest =>
    if hwm < parseTs story.created_at then
      match normalize_story_media story none with
      | .error e => .error e
      | .ok l => scanStories parseTs hwm (acc ++ l) rest
    else .ok acc

/-- get_story_media_by_id from client.py lines 444-482: read the stories
high-water mark, fetch the single unpaginated response, and scan it in
reversed (oldest-first) order. -/
def get_story_media_by_id (parseTs : String → Int) (db : Option (List LedgerRow)) (stories : List Story) : Except Unit (List NormalizedMedia) :=
  scanStories parseTs (highWaterMark db "stories") [] stories.reverse

/-- Guard and contribution of one message in get_message_media_by_id
(client.py lines 375-379): above the cutoff, a message contributes its
normalized media only when its sender id equals the requested user id and it
has a truthy media list with some viewable entry. -/
def messageContribution (user_id : Int) (message : Message) : List NormalizedMedia :=
  if message.from_user.id == user_id then
    if !message.media.isEmpty && message.media.any (fun m => m.can_view) then
      normalize_message_media message
    else []
  else []

/-- Inner for-loop of get_message_media_by_id over one decoded page: the
media contributed by the page, and whether the cutoff was reached. -/
def scanMessagePage (parseTs : String → Int) (user_id : Int) (hwm : Int) : List Message → List NormalizedMedia × Bool
  | [] => ([], false)
  | message :: rest =>
    if hwm < parseTs message.created_at then
      let r := scanMessagePage parseTs user_id hwm rest
      (messageContribution user_id message ++ r.1, r.2)
    else ([], true)

/-- While-loop of get_message_media_by_id (client.py lines 362-384) over the
successive page responses; stops at the cutoff or when hasMore is false.  The
end of the pages list models the remote delivering no further pages. -/
def fetchMessagePages (parseTs : String → Int) (user_id : Int) (hwm : Int) : List Messages → List NormalizedMedia
  | [] => []
  | page :: rest =>
    let r := scanMessagePage parseTs user_id hwm page.messages
    if r.2 then r.1
    else if !page.has_more then r.1
    else r.1 ++ fetchMessagePages parseTs user_id hwm rest

/-- get_message_media_by_id from client.py lines 339-384: read the messages
high-water mark, then enumerate the chat pages. -/
def get_message_media_by_id (parseTs : String → Int) (user_id : Int) (db : Option (List LedgerRow)) (pages : List Messages) : List NormalizedMedia :=
  fetchMessagePages parseTs user_id (highWaterMark db "messages") pages

/-- HeaderRules struct from structs.py: the signing-rules bundle. -/
structure HeaderRules where
  static_param : String
  format : String
  checksum_indexes : List Int
  checksum_constant : Int
  app_token : String
  deriving DecidableEq

/-- ASCII bytes of a string, as produced by str.encode for the hex digest
strings fed to the checksum (all their characters are ASCII). -/
def asciiBytes (s : String) : List Nat :=
  s.toList.map Char.toNat

/-- Python sequence indexing b[i]: negative indexes count from the end, and
an index out of range raises IndexError, modelled as the error branch. -/
def pyIndex (l : List Nat) (i : Int) : Except Unit Nat :=
  let j : Int := if i < 0 then (l.length : Int) + i else i
  if 0 ≤ j ∧ j < (l.length : Int) then .ok (l.getD j.toNat 0) else .error ()

/-- Sum of the digest bytes selected by the checksum indexes, propagating an
IndexError from any out-of-range index. -/
def checksumSum (bytes : List Nat) : List Int → Except Unit Int
  | [] => .ok 0
  | i :: rest =>
    match pyIndex bytes i with
    | .error e => .error e
    | .ok b =>
      match checksumSum bytes rest with
      | .error e => .error e
      | .ok s => .ok ((b : Int) + s)

/-- Checksum of client.py line 126: absolute value of the selected digest
bytes summed with the checksum constant. -/
def checksumOf (rules : HeaderRules) (digest : String) : Except Unit Int :=
  (checksumSum (asciiBytes digest) rules.checksum_indexes).map
    (fun s => ((s + rules.checksum_constant).natAbs : Int))

/-- Lowercase hexadecimal rendering of an integer, as Python format spec x
produces (the signer only ever formats the non-negative checksum). -/
def pyHex (n : Int) : String :=
  if n < 0 then "-" ++ String.mk (Nat.toDigits 16 n.natAbs)
  else String.mk (Nat.toDigits 16 n.natAbs)

/-- Argument to str.format: the signer passes a string and an int. -/
inductive PyVal where
  | s (v : String)
  | i (v : Int)
  deriving DecidableEq

/-- Modelled from the Python standard library str.format, restricted to the
field forms the signing rules use: auto-numbered plain fields and
hex-formatted fields, plus doubled braces as literal braces.  Any other
replacement field, a stray closing brace, or a field beyond the argument
list raises, modelled as the error branch. -/
def pyFormatGo (args : List PyVal) : List Char → Nat → Except Unit String
  | [], _ => .ok ""
  | '\x7b' :: '\x7b' :: rest, k => (pyFormatGo args rest k).map (fun t => "\x7b" ++ t)
  | '\x7d' :: '\x7d' :: rest, k => (pyFormatGo args rest k).map (fun t => "\x7d" ++ t)
  | '\x7b' :: '\x7d' :: rest, k =>
    match args.get? k with
    | some (.s v) => (pyFormatGo args rest (k + 1)).map (fun t => v ++ t)
    | some (.i v) => (pyFormatGo args rest (k + 1)).map (fun t => toString v ++ t)
    | none => .error ()
  | '\x7b' :: ':' :: 'x' :: '\x7d' :: rest, k =>
    match args.get? k with
    | some (.i v) => (pyFormatGo args rest (k + 1)).map (fun t => pyHex v ++ t)
    | _ => .error ()
  | '\x7b' :: _, _ => .error ()
  | '\x7d' :: _, _ => .error ()
  | c :: rest, k => (pyFormatGo args rest k).map (fun t => String.mk [c] ++ t)

/-- Application of a format template to its arguments. -/
def pyFormat (fmt : String) (args : List PyVal) : Except Unit String :=
  pyFormatGo args fmt.toList 0

/-- Path-plus-query portion of the requested URL, client.py line 115. -/
def urlPath (path query : String) : String :=
  if !(query == "") then path ++ "?" ++ query else path

/-- Newline-joined signing payload of client.py line 122. -/
def signPayload (rules : HeaderRules) (t url_path : String) : String :=
  String.intercalate "\n" [rules.static_param, t, url_path, "0"]

/-- generate_headers from client.py lines 99-134.  sha1hex stands for the
hashlib sha1 hex digest; t is the current Unix time rendered in decimal
(the one impure input, made explicit); rules is None when the client was
built without header rules, which raises ScrapingException. -/
def generate_headers (sha1hex : String → String) (rules : Option HeaderRules) (x_bc cookie user_agent : String) (t path query : String) : Except Unit (List (String × String)) :=
  match rules with
  | none => .error ()
  | some r =>
    let digest := sha1hex (signPayload r t (urlPath path query))
    match checksumOf r digest with
    | .error e => .error e
    | .ok cs =>
      match pyFormat r.format [.s digest, .i cs] with
      | .error e => .error e
      | .ok sign =>
        let base := [("accept", "application/json, text/plain, */*"),
                     ("app-token", r.app_token),
                     ("sign", sign),
                     ("time", t),
                     ("x-bc", x_bc)]
        let base := if !(cookie == "") then base ++ [("cookie", cookie)] else base
        let base := if !(user_agent == "") then base ++ [("user-agent", user_agent)] else base
        .ok base

/-- Fan-in of one fetch stage in the download driver (main module lines
90-130): each per-user future holds either that user's media list or the
ScrapingException its task raised; collecting calls future.result(), which
re-raises the stored exception, aborting the whole stage.  The input models
the completed futures paired with their user ids. -/
def gatherResults : List (Int × Except Unit (List NormalizedMedia)) → Except Unit (List (Int × List NormalizedMedia))
  | [] => .ok []
  | (u, .error e) :: _ => .error e
  | (u, .ok l) :: rest => (gatherResults rest).map (fun t => (u, l) :: t)

/-- Media a post contributes when the enumeration keeps it: the output of the
posts normalizer (empty when normalization raises, used only under hypotheses
that exclude that case). -/
def viewableMediaOf (skipTemp : Bool) (post : Post) : List NormalizedMedia :=
  match normalize_post_media post skipTemp with
  | .ok l => l
  | .error _ => []

/-- Specification-side description of a full posts enumeration without early
stop: the viewable media of exactly the records newer than the high-water
mark, in delivery order. -/
def allNewMedia (parseTs : String → Int) (skipTemp : Bool) (hwm : Int) (posts : List Post) : List NormalizedMedia :=
  (posts.filter (postTsGT parseTs hwm)).flatMap (viewableMediaOf skipTemp)

/-- Specification-side signing payload, following the spec words
SHA1(staticParam + newline + t + newline + path+query + newline-zero). -/
def specSignPayload (staticParam t pq : String) : String :=
  staticParam ++ "\n" ++ t ++ "\n" ++ pq ++ "\n" ++ "0"

/-- Specification-side checksum, following the spec words: absolute value of
the sum of the ASCII bytes of the digest at the checksumIndexes positions
plus the checksum constant (indexes assumed in range). -/
def specChecksum (digest : String) (indexes : List Int) (c : Int) : Int :=
  (((indexes.map (fun i => ((asciiBytes digest).getD i.toNat 0 : Int))).sum + c).natAbs : Int)

/-- Example remote user for concrete instances. -/
def exUser : User :=
  { id := 7, username := some "u", name := none, avatar := none, header := none }

/-- Example viewable post media entry with id 5. -/
def exPostMedia5 : Post.Media :=
  { id := 5, type := "photo", can_view := true,
    source := { source := some "u5", width := 10, height := 20, duration := 0 } }

/-- Example viewable post media entry with id 6. -/
def exPostMedia6 : Post.Media :=
  { id := 6, type := "photo", can_view := true,
    source := { source := some "u6", width := 10, height := 20, duration := 0 } }

/-- Example non-viewable post media entry. -/
def exPostMediaHidden : Post.Media :=
  { id := 9, type := "photo", can_view := false,
    source := { source := none, width := 1, height := 1, duration := 0 } }

/-- Archived post of the spec example: price 10, media ids 5 and 6, preview
containing 5. -/
def exArchivedPost : Post :=
  { id := 1, posted_at := "t9", posted_at_precise := "t9",
    author := some exUser, raw_text := some "cap", price := some 10,
    media := some [exPostMedia5, exPostMedia6], preview := some [.pint 5] }

/-- Post whose sole media entry is not viewable. -/
def exHiddenPost : Post :=
  { id := 2, posted_at := "t9", posted_at_precise := "t9",
    author := some exUser, media := some [exPostMediaHidden] }

/-- Post with one viewable entry, timestamp token t9. -/
def exPost9 : Post :=
  { id := 3, posted_at := "t9", posted_at_precise := "t9",
    author := some exUser, raw_text := some "a", price := none,
    media := some [exPostMedia5] }

/-- Post with one viewable entry, timestamp token t8. -/
def exPost8 : Post :=
  { id := 4, posted_at := "t8", posted_at_precise := "t8",
    author := some exUser, raw_text := some "b", price := none,
    media := some [exPostMedia6] }

/-- Post with one viewable entry, timestamp token t1, below the example
high-water mark. -/
def exPost1 : Post :=
  { id := 5, posted_at := "t1", posted_at_precise := "t1",
    author := some exUser, raw_text := some "c", price := none,
    media := some [exPostMedia5] }

/-- Concrete timestamp parser for witnesses: token t9 parses to 9, t8 to 8,
anything else to 1. -/
def exParseTs (s : String) : Int :=
  if s == "t9" then 9 else if s == "t8" then 8 else 1

/-- Example ledger with a posts row at timestamp 5, so the posts high-water
mark is 5. -/
def exLedger : List LedgerRow :=
  [{ source_type := "posts", timestamp := 5, source_id := 1, media_id := 1 }]

/-- Example viewable story media entry. -/
def exStoryMedia : Story.Media :=
  { id := 11, type := "photo", can_view := true,
    source := { source := some "s", width := 3, height := 4, duration := 0 } }

/-- Example non-viewable story media entry. -/
def exStoryMediaHidden : Story.Media :=
  { id := 12, type := "photo", can_view := false,
    source := { source := none, width := 1, height := 1, duration := 0 } }

/-- Story with one viewable media entry, newer than any high-water mark of
the examples. -/
def exStory : Story :=
  { id := 20, user_id := 7, created_at := "t9", media := [exStoryMedia], question := none }

/-- Story whose sole media entry is not viewable. -/
def exHiddenStory : Story :=
  { id := 21, user_id := 7, created_at := "t9", media := [exStoryMediaHidden], question := none }

/-- Example viewable message media entry. -/
def exMessageMedia : Message.Media :=
  { id := 31, can_view := true, type := "photo", src := some "m",
    duration := 0, info := { source := { width := 5, height := 6 } } }

/-- Example non-viewable message media entry. -/
def exMessageMediaHidden : Message.Media :=
  { id := 32, can_view := false, type := "photo", src := none,
    duration := 0, info := { source := { width := 1, height := 1 } } }

/-- Message from user 7 with one viewable media entry. -/
def exMessage : Message :=
  { text := some "hi", price := 0, media := [exMessageMedia], previews := [],
    from_user := exUser, id := 40, created_at := "t9" }

/-- Message whose sole media entry is not viewable. -/
def exHiddenMessage : Message :=
  { text := none, price := 0, media := [exMessageMediaHidden], previews := [],
    from_user := exUser, id := 41, created_at := "t9" }

/-- Message sent by a different party (user 8) in the same chat, newer than
the high-water mark and carrying viewable media. -/
def exOtherMessage : Message :=
  { text := some "yo", price := 0, media := [exMessageMedia], previews := [],
    from_user := { id := 8, username := none, name := none, avatar := none, header := none },
    id := 42, created_at := "t9" }

/-- Example normalized media item, the one produced for exMessage. -/
def exNM : NormalizedMedia :=
  { user_id := 7, source_type := "messages", source_id := 40, id := 31,
    file_type := "photo", created_at := "t9", value := "free", text := some "hi",
    width := 5, height := 6, duration := 0, url := some "m" }

/-- Example signing-rules bundle with two checksum indexes and a format
carrying one plain and one hex field. -/
def exRules : HeaderRules :=
  { static_param := "sp", format := "12:\x7b\x7d:\x7b:x\x7d:z",
    checksum_indexes := [0, 3], checksum_constant := 2, app_token := "tok" }

/-- Fixed stand-in for the sha1 hex digest function in witnesses. -/
def exSha1 (s : String) : String :=
  "0123456789abcdef0123456789abcdef01234567"

/-- Normalized item the archived normalizer produces for media entry 5 of
the example archived post: in the preview list, hence free. -/
def exItem5 : NormalizedMedia :=
  { user_id := 7, source_type := "archived", source_id := 1, id := 5,
    file_type := "photo", created_at := "t9", value := "free", text := some "cap",
    width := 10, height := 20, duration := 0, url := some "u5" }

/-- Normalized item the archived normalizer produces for media entry 6 of
the example archived post: priced and not previewed, hence paid. -/
def exItem6 : NormalizedMedia :=
  { user_id := 7, source_type := "archived", source_id := 1, id := 6,
    file_type := "photo", created_at := "t9", value := "paid", text := some "cap",
    width := 10, height := 20, duration := 0, url := some "u6" }

/-- C2: for every media identity key (sourceType, sourceRecordID, mediaID),
recording the key in the ledger a second time is a no-op, not an error:
after record is invoked twice with the same key (with any timestamps), the
second invocation leaves the ledger unchanged, and exactly one row carries
that key, given the primary-key invariant that the ledger held at most one
row for the key beforehand. -/
theorem record_media_idempotent (db : List LedgerRow) (st : String) (ts ts' sid mid : Int)
    (h : countKey db st sid mid ≤ 1) :
    recordMedia (recordMedia db st ts sid mid) st ts' sid mid = recordMedia db st ts sid mid
    ∧ countKey (recordMedia (recordMedia db st ts sid mid) st ts' sid mid) st sid mid = 1 := by
  have hkey : rowKeyMatches { source_type := st, timestamp := ts, source_id := sid, media_id := mid } st sid mid = true := by
    simp [rowKeyMatches]
  by_cases hany : db.any (fun row => rowKeyMatches row st sid mid) = true
  · have h1 : recordMedia db st ts sid mid = db := by simp [recordMedia, hany]
    have h2 : recordMedia db st ts' sid mid = db := by simp [recordMedia, hany]
    rw [h1, h2]
    refine ⟨rfl, ?_⟩
    have hpos : 0 < countKey db st sid mid := by
      rw [countKey, List.countP_pos_iff]
      obtain ⟨r, hr, hp⟩ := List.any_eq_true.mp hany
      exact ⟨r, hr, hp⟩
    omega
  · have h1 : recordMedia db st ts sid mid
        = db ++ [{ source_type := st, timestamp := ts, source_id := sid, media_id := mid }] := by
      simp [recordMedia, hany]
    have hany2 : (db ++ [({ source_type := st, timestamp := ts, source_id := sid, media_id := mid } : LedgerRow)]).any
        (fun row => rowKeyMatches row st sid mid) = true := by
      rw [List.any_append]
      simp [hkey]
    have h2 : recordMedia (db ++ [({ source_type := st, timestamp := ts, source_id := sid, media_id := mid } : LedgerRow)]) st ts' sid mid
        = db ++ [{ source_type := st, timestamp := ts, source_id := sid, media_id := mid }] := by
      simp [recordMedia, hany2]
    rw [h1, h2]
    refine ⟨rfl, ?_⟩
    have hz : countKey db st sid mid = 0 := by
      rw [countKey, List.countP_eq_zero]
      intro r hr
      intro hp
      exact hany (List.any_eq_true.mpr ⟨r, hr, hp⟩)
    rw [countKey, List.countP_append]
    rw [countKey] at hz
    simp [hz, hkey]

/-- Witness for record_media_idempotent at the empty ledger. -/
theorem record_media_idempotent_witness :
    countKey [] "posts" 1 2 ≤ 1 ∧
    (recordMedia (recordMedia [] "posts" 5 1 2) "posts" 6 1 2 = recordMedia [] "posts" 5 1 2
     ∧ countKey (recordMedia (recordMedia [] "posts" 5 1 2) "posts" 6 1 2) "posts" 1 2 = 1) :=
  ⟨by decide, record_media_idempotent [] "posts" 5 6 1 2 (by decide)⟩

/-- C6: reading the high-water mark for a source type with no prior ledger
state returns 0 and never raises: a missing or unreadable store (modelled as
None, the caught OperationalError path) yields 0, and a readable store with
no row of that source type also yields 0. -/
theorem high_water_mark_no_prior (st : String) :
    highWaterMark none st = 0 ∧
    ∀ rows : List LedgerRow, (∀ r ∈ rows, ¬ r.source_type = st) →
      highWaterMark (some rows) st = 0 := by
  refine ⟨rfl, fun rows h => ?_⟩
  have hf : rows.filter (fun r => r.source_type == st) = [] := by
    rw [List.filter_eq_nil_iff]
    intro r hr
    simpa using h r hr
  simp [highWaterMark, hf]

/-- Witness for high_water_mark_no_prior: the example ledger has no stories
row, so the stories high-water mark is 0. -/
theorem high_water_mark_no_prior_witness :
    (∀ r ∈ exLedger, ¬ r.source_type = "stories") ∧ highWaterMark (some exLedger) "stories" = 0 :=
  ⟨by decide, (high_water_mark_no_prior "stories").2 exLedger (by decide)⟩

/-- Helper: every item the archived loop produces carries the price tag
computed from the post price and the preview list. -/
theorem archived_loop_value (post : Post) (pv : List PreviewEntry) (hpv : post.preview = some pv) :
    ∀ (ms : List Post.Media) (l : List NormalizedMedia), normalizeArchivedLoop post ms = .ok l →
      ∀ nm ∈ l, nm.value = if priceTruthy post.price && !(previewHasId pv nm.id) then "paid" else "free" := by
  intro ms
  induction ms with
  | nil =>
    intro l hl nm hnm
    simp only [normalizeArchivedLoop, Except.ok.injEq] at hl
    subst hl
    simp at hnm
  | cons media rest ih =>
    intro l hl nm hnm
    by_cases hv : media.can_view
    · cases hau : post.author with
      | none => simp [normalizeArchivedLoop, hv, hau] at hl
      | some a =>
        cases hval : archivedValue post media.id with
        | error e => simp [normalizeArchivedLoop, hv, hau, hval] at hl
        | ok v =>
          cases hrest : normalizeArchivedLoop post rest with
          | error e => simp [normalizeArchivedLoop, hv, hau, hval, hrest] at hl
          | ok tail =>
            simp only [normalizeArchivedLoop, hv, hau, hval, hrest, Bool.not_true,
              Bool.false_eq_true, if_false, Except.ok.injEq] at hl
            subst hl
            rcases List.mem_cons.mp hnm with h | h
            · subst h
              by_cases hp : priceTruthy post.price
              · simp only [archivedValue, hp, hpv, if_true, Except.ok.injEq] at hval
                simp [← hval, hp]
              · simp only [archivedValue, hp, hpv, Bool.false_eq_true, if_false,
                  Except.ok.injEq] at hval
                simp [← hval, hp]
            · exact ih tail hrest nm h
    · have hv2 : media.can_view = false := by simpa using hv
      simp only [normalizeArchivedLoop, hv2, Bool.not_false, if_true] at hl
      exact ih l hl nm hnm

/-- C7: for every archived post carrying a preview list, a produced media
entry is tagged paid iff the post price is truthy (nonzero) and the entry id
is absent from the preview ids; and normalizing the spec example (price 10,
media ids 5 and 6, preview [5]) yields item 5 tagged free and item 6 tagged
paid. -/
theorem archived_paid_iff :
    (∀ (post : Post) (skipTemp : Bool) (pv : List PreviewEntry) (l : List NormalizedMedia),
      post.preview = some pv →
      normalize_archived_post_media post skipTemp = .ok l →
      ∀ nm ∈ l, (nm.value = "paid" ↔ (priceTruthy post.price = true ∧ previewHasId pv nm.id = false)))
    ∧ normalize_archived_post_media exArchivedPost false = .ok [exItem5, exItem6] := by
  constructor
  · intro post skipTemp pv l hpv hnorm nm hnm
    have hval : nm.value = if priceTruthy post.price && !(previewHasId pv nm.id) then "paid" else "free" := by
      by_cases hcond : (!(listOptTruthy post.media) || (strOptTruthy post.expired_at && skipTemp)) = true
      · simp only [normalize_archived_post_media, hcond, if_true, Except.ok.injEq] at hnorm
        subst hnorm
        simp at hnm
      · have hcond2 : (!(listOptTruthy post.media) || (strOptTruthy post.expired_at && skipTemp)) = false := by
          simpa using hcond
        simp only [normalize_archived_post_media, hcond2, Bool.false_eq_true, if_false] at hnorm
        exact archived_loop_value post pv hpv _ l hnorm nm hnm
    rw [hval]
    by_cases hp : priceTruthy post.price <;> by_cases hh : previewHasId pv nm.id <;>
      simp [hp, hh]
  · rfl

/-- Witness for archived_paid_iff at the example archived post and its paid
item 6. -/
theorem archived_paid_iff_witness :
    exArchivedPost.preview = some [.pint 5]
    ∧ normalize_archived_post_media exArchivedPost false = .ok [exItem5, exItem6]
    ∧ exItem6 ∈ [exItem5, exItem6]
    ∧ (exItem6.value = "paid" ↔ (priceTruthy exArchivedPost.price = true ∧ previewHasId [.pint 5] exItem6.id = false)) :=
  ⟨rfl, rfl, by decide,
    archived_paid_iff.1 exArchivedPost false [.pint 5] [exItem5, exItem6] rfl rfl exItem6 (by decide)⟩

/-- Helper: the story loop raises as soon as the media list contains a
viewable entry, because the source constructs NormalizedMedia without its
required value field there. -/
theorem storyLoop_raises :
    ∀ ms : List Story.Media, (∃ m ∈ ms, m.can_view = true) → normalizeStoryLoop ms = .error () := by
  intro ms
  induction ms with
  | nil =>
    rintro ⟨m, hm, _⟩
    simp at hm
  | cons a rest ih =>
    rintro ⟨m, hm, hv⟩
    rcases List.mem_cons.mp hm with h | h
    · subst h
      simp [normalizeStoryLoop, hv]
    · by_cases ha : a.can_view
      · simp [normalizeStoryLoop, ha]
      · have ha2 : a.can_view = false := by simpa using ha
        simp only [normalizeStoryLoop, ha2, Bool.not_false, if_true]
        exact ih ⟨m, h, hv⟩

/-- Helper: when the story loop does return, it returns the empty list. -/
theorem storyLoop_ok_empty :
    ∀ (ms : List Story.Media) (l : List NormalizedMedia), normalizeStoryLoop ms = .ok l → l = [] := by
  intro ms
  induction ms with
  | nil =>
    intro l hl
    simp only [normalizeStoryLoop, Except.ok.injEq] at hl
    exact hl.symm
  | cons a rest ih =>
    intro l hl
    by_cases ha : a.can_view
    · simp [normalizeStoryLoop, ha] at hl
    · have ha2 : a.can_view = false := by simpa using ha
      simp only [normalizeStoryLoop, ha2, Bool.not_false, if_true] at hl
      exact ih l hl

/-- C8 (code defect): normalizing a story never yields free-tagged items for
its viewable entries: on every story with at least one viewable media entry
the source raises TypeError, because the NormalizedMedia construction omits
the required value field; modelled as the error result. -/
theorem story_normalize_raises :
    ∀ (story : Story) (hc : Option String), (∃ m ∈ story.media, m.can_view = true) →
      normalize_story_media story hc = .error () := by
  intro story hc hex
  rw [normalize_story_media]
  exact storyLoop_raises story.media hex

/-- Witness for story_normalize_raises at the example story. -/
theorem story_normalize_raises_witness :
    (∃ m ∈ exStory.media, m.can_view = true) ∧ normalize_story_media exStory none = .error () :=
  ⟨by decide, story_normalize_raises exStory none (by decide)⟩

/-- Helper: the story scan raises whenever every story is above the cutoff
and some story has a viewable media entry. -/
theorem scanStories_raises (parseTs : String → Int) (hwm : Int) :
    ∀ (L : List Story) (acc : List NormalizedMedia),
      (∀ s ∈ L, hwm < parseTs s.created_at) →
      (∃ s ∈ L, ∃ m ∈ s.media, m.can_view = true) →
      scanStories parseTs hwm acc L = .error () := by
  intro L
  induction L with
  | nil =>
    rintro acc _ ⟨s, hs, _⟩
    simp at hs
  | cons a rest ih =>
    rintro acc hts ⟨s, hs, m, hm, hv⟩
    have hta : hwm < parseTs a.created_at := hts a (by simp)
    rcases List.mem_cons.mp hs with h | h
    · have herr : normalize_story_media a none = .error () := by
        rw [normalize_story_media]
        exact storyLoop_raises a.media ⟨m, h ▸ hm, hv⟩
      simp [scanStories, hta, herr]
    · cases hna : normalize_story_media a none with
      | error e =>
        cases e
        simp [scanStories, hta, hna]
      | ok l =>
        simp only [scanStories, hta, if_true, hna]
        exact ih _ (fun s2 hs2 => hts s2 (by simp [hs2])) ⟨s, h, m, hm, hv⟩

/-- C4 (code defect): the stories consumer walks the reversed single fetch
applying the high-water-mark cutoff, but it can never return the viewable
media of the stories newer than the mark: whenever any such story has a
viewable entry, normalization raises (the missing value field of C8), so the
whole enumeration errors instead of returning those media. -/
theorem story_fetch_raises (parseTs : String → Int) (db : Option (List LedgerRow)) (stories : List Story)
    (hts : ∀ s ∈ stories, highWaterMark db "stories" < parseTs s.created_at)
    (hview : ∃ s ∈ stories, ∃ m ∈ s.media, m.can_view = true) :
    get_story_media_by_id parseTs db stories = .error () := by
  rw [get_story_media_by_id]
  obtain ⟨s, hs, hrest⟩ := hview
  exact scanStories_raises parseTs (highWaterMark db "stories") stories.reverse []
    (fun s2 hs2 => hts s2 (List.mem_reverse.mp hs2))
    ⟨s, List.mem_reverse.mpr hs, hrest⟩

/-- Witness for story_fetch_raises: one fresh story with viewable media and
no prior ledger state makes the fetch raise. -/
theorem story_fetch_raises_witness :
    (∀ s ∈ [exStory], highWaterMark none "stories" < exParseTs s.created_at)
    ∧ (∃ s ∈ [exStory], ∃ m ∈ s.media, m.can_view = true)
    ∧ get_story_media_by_id exParseTs none [exStory] = .error () :=
  ⟨by decide, by decide, story_fetch_raises exParseTs none [exStory] (by decide) (by decide)⟩

/-- Helper: every item produced by the post loop stems from a viewable media
entry of the walked list, with matching id. -/
theorem postLoop_view (post : Post) :
    ∀ (ms : List Post.Media) (l : List NormalizedMedia), normalizePostLoop post ms = .ok l →
      ∀ nm ∈ l, ∃ m ∈ ms, m.can_view = true ∧ nm.id = m.id := by
  intro ms
  induction ms with
  | nil =>
    intro l hl nm hnm
    simp only [normalizePostLoop, Except.ok.injEq] at hl
    subst hl
    simp at hnm
  | cons media rest ih =>
    intro l hl nm hnm
    by_cases hv : media.can_view
    · cases hau : post.author with
      | none => simp [normalizePostLoop, hv, hau] at hl
      | some a =>
        cases hrest : normalizePostLoop post rest with
        | error e => simp [normalizePostLoop, hv, hau, hrest] at hl
        | ok tail =>
          simp only [normalizePostLoop, hv, hau, hrest, Bool.not_true, Bool.false_eq_true,
            if_false, Except.ok.injEq] at hl
          subst hl
          rcases List.mem_cons.mp hnm with h | h
          · subst h
            exact ⟨media, by simp, hv, rfl⟩
          · obtain ⟨m, hm, hmv, hid⟩ := ih tail hrest nm h
            exact ⟨m, by simp [hm], hmv, hid⟩
    · have hv2 : media.can_view = false := by simpa using hv
      simp only [normalizePostLoop, hv2, Bool.not_false, if_true] at hl
      obtain ⟨m, hm, hmv, hid⟩ := ih l hl nm hnm
      exact ⟨m, by simp [hm], hmv, hid⟩

/-- Helper: every item produced by the archived loop stems from a viewable
media entry of the walked list, with matching id. -/
theorem archivedLoop_view (post : Post) :
    ∀ (ms : List Post.Media) (l : List NormalizedMedia), normalizeArchivedLoop post ms = .ok l →
      ∀ nm ∈ l, ∃ m ∈ ms, m.can_view = true ∧ nm.id = m.id := by
  intro ms
  induction ms with
  | nil =>
    intro l hl nm hnm
    simp only [normalizeArchivedLoop, Except.ok.injEq] at hl
    subst hl
    simp at hnm
  | cons media rest ih =>
    intro l hl nm hnm
    by_cases hv : media.can_view
    · cases hau : post.author with
      | none => simp [normalizeArchivedLoop, hv, hau] at hl
      | some a =>
        cases hval : archivedValue post media.id with
        | error e => simp [normalizeArchivedLoop, hv, hau, hval] at hl
        | ok v =>
          cases hrest : normalizeArchivedLoop post rest with
          | error e => simp [normalizeArchivedLoop, hv, hau, hval, hrest] at hl
          | ok tail =>
            simp only [normalizeArchivedLoop, hv, hau, hval, hrest, Bool.not_true,
              Bool.false_eq_true, if_false, Except.ok.injEq] at hl
            subst hl
            rcases List.mem_cons.mp hnm with h | h
            · subst h
              exact ⟨media, by simp, hv, rfl⟩
            · obtain ⟨m, hm, hmv, hid⟩ := ih tail hrest nm h
              exact ⟨m, by simp [hm], hmv, hid⟩
    · have hv2 : media.can_view = false := by simpa using hv
      simp only [normalizeArchivedLoop, hv2, Bool.not_false, if_true] at hl
      obtain ⟨m, hm, hmv, hid⟩ := ih l hl nm hnm
      exact ⟨m, by simp [hm], hmv, hid⟩

/-- Helper: every item produced by the message loop stems from a viewable
media entry of the walked list, with matching id. -/
theorem messageLoop_view (message : Message) :
    ∀ (ms : List Message.Media), ∀ nm ∈ normalizeMessageLoop message ms,
      ∃ m ∈ ms, m.can_view = true ∧ nm.id = m.id := by
  intro ms
  induction ms with
  | nil =>
    intro nm hnm
    simp [normalizeMessageLoop] at hnm
  | cons media rest ih =>
    intro nm hnm
    by_cases hv : media.can_view
    · simp only [normalizeMessageLoop, hv, Bool.not_true, Bool.false_eq_true, if_false] at hnm
      rcases List.mem_cons.mp hnm with h | h
      · subst h
        exact ⟨media, by simp, hv, rfl⟩
      · obtain ⟨m, hm, hmv, hid⟩ := ih nm h
        exact ⟨m, by simp [hm], hmv, hid⟩
    · have hv2 : media.can_view = false := by simpa using hv
      simp only [normalizeMessageLoop, hv2, Bool.not_false, if_true] at hnm
      obtain ⟨m, hm, hmv, hid⟩ := ih nm hnm
      exact ⟨m, by simp [hm], hmv, hid⟩

/-- C9: across all four source kinds, a normalized media item is only ever
produced from a nested media entry whose canView is true (story
normalization, when it returns at all, returns no items, so the invariant
holds there vacuously); and normalizing a record whose sole media entry has
canView false yields an empty result for each kind. -/
theorem media_items_only_viewable :
    (∀ (post : Post) (stp : Bool) (l : List NormalizedMedia), normalize_post_media post stp = .ok l →
      ∀ nm ∈ l, ∃ m ∈ post.media.getD [], m.can_view = true ∧ nm.id = m.id)
    ∧ (∀ (post : Post) (stp : Bool) (l : List NormalizedMedia), normalize_archived_post_media post stp = .ok l →
      ∀ nm ∈ l, ∃ m ∈ post.media.getD [], m.can_view = true ∧ nm.id = m.id)
    ∧ (∀ (message : Message), ∀ nm ∈ normalize_message_media message,
      ∃ m ∈ message.media, m.can_view = true ∧ nm.id = m.id)
    ∧ (∀ (story : Story) (hc : Option String) (l : List NormalizedMedia),
      normalize_story_media story hc = .ok l →
      ∀ nm ∈ l, ∃ m ∈ story.media, m.can_view = true ∧ nm.id = m.id)
    ∧ normalize_post_media exHiddenPost false = .ok []
    ∧ normalize_archived_post_media exHiddenPost false = .ok []
    ∧ normalize_message_media exHiddenMessage = []
    ∧ normalize_story_media exHiddenStory none = .ok [] := by
  refine ⟨?_, ?_, ?_, ?_, rfl, rfl, rfl, rfl⟩
  · intro post stp l hnorm nm hnm
    by_cases hcond : (!(listOptTruthy post.media) || (strOptTruthy post.expired_at && stp)) = true
    · simp only [normalize_post_media, hcond, if_true, Except.ok.injEq] at hnorm
      subst hnorm
      simp at hnm
    · have hcond2 : (!(listOptTruthy post.media) || (strOptTruthy post.expired_at && stp)) = false := by
        simpa using hcond
      simp only [normalize_post_media, hcond2, Bool.false_eq_true, if_false] at hnorm
      exact postLoop_view post _ l hnorm nm hnm
  · intro post stp l hnorm nm hnm
    by_cases hcond : (!(listOptTruthy post.media) || (strOptTruthy post.expired_at && stp)) = true
    · simp only [normalize_archived_post_media, hcond, if_true, Except.ok.injEq] at hnorm
      subst hnorm
      simp at hnm
    · have hcond2 : (!(listOptTruthy post.media) || (strOptTruthy post.expired_at && stp)) = false := by
        simpa using hcond
      simp only [normalize_archived_post_media, hcond2, Bool.false_eq_true, if_false] at hnorm
      exact archivedLoop_view post _ l hnorm nm hnm
  · intro message nm hnm
    exact messageLoop_view message message.media nm hnm
  · intro story hc l hnorm nm hnm
    rw [normalize_story_media] at hnorm
    have := storyLoop_ok_empty story.media l hnorm
    subst this
    simp at hnm

/-- Witness for media_items_only_viewable at the example message and its
produced item. -/
theorem media_items_only_viewable_witness :
    exNM ∈ normalize_message_media exMessage
    ∧ ∃ m ∈ exMessage.media, m.can_view = true ∧ exNM.id = m.id :=
  ⟨by decide, media_items_only_viewable.2.2.1 exMessage exNM (by decide)⟩

/-- Helper: every item the message loop produces carries the sender id of
the message. -/
theorem messageLoop_user (message : Message) :
    ∀ (ms : List Message.Media), ∀ nm ∈ normalizeMessageLoop message ms,
      nm.user_id = message.from_user.id := by
  intro ms
  induction ms with
  | nil =>
    intro nm hnm
    simp [normalizeMessageLoop] at hnm
  | cons media rest ih =>
    intro nm hnm
    by_cases hv : media.can_view
    · simp only [normalizeMessageLoop, hv, Bool.not_true, Bool.false_eq_true, if_false] at hnm
      rcases List.mem_cons.mp hnm with h | h
      · subst h
        rfl
      · exact ih nm h
    · have hv2 : media.can_view = false := by simpa using hv
      simp only [normalizeMessageLoop, hv2, Bool.not_false, if_true] at hnm
      exact ih nm hnm

/-- Helper: every item contributed by one message carries the requested user
id, because the contribution is guarded by the sender check. -/
theorem messageContribution_user (uid : Int) (message : Message) :
    ∀ nm ∈ messageContribution uid message, nm.user_id = uid := by
  intro nm hnm
  by_cases hid : (message.from_user.id == uid) = true
  · by_cases hg : (!message.media.isEmpty && message.media.any (fun m => m.can_view)) = true
    · simp only [messageContribution, hid, hg, if_true] at hnm
      have h1 := messageLoop_user message message.media nm hnm
      have h2 : message.from_user.id = uid := by
        simpa using hid
      rw [h1, h2]
    · have hg2 : (!message.media.isEmpty && message.media.any (fun m => m.can_view)) = false := by
        simpa using hg
      simp [messageContribution, hid, hg2] at hnm
  · have hid2 : (message.from_user.id == uid) = false := by simpa using hid
    simp [messageContribution, hid2] at hnm

/-- Helper: every item the page scan yields carries the requested user id. -/
theorem scanMessagePage_user (parseTs : String → Int) (uid hwm : Int) :
    ∀ (ms : List Message), ∀ nm ∈ (scanMessagePage parseTs uid hwm ms).1, nm.user_id = uid := by
  intro ms
  induction ms with
  | nil =>
    intro nm hnm
    simp [scanMessagePage] at hnm
  | cons message rest ih =>
    intro nm hnm
    by_cases hts : hwm < parseTs message.created_at
    · simp only [scanMessagePage, hts, if_true] at hnm
      rcases List.mem_append.mp hnm with h | h
      · exact messageContribution_user uid message nm h
      · exact ih nm h
    · simp [scanMessagePage, hts] at hnm

/-- C10: the chat enumeration for remote user id U produces media items only
from messages whose sender id equals U; concretely, a chat page holding only
a fresh, viewable-media message from another sender yields nothing. -/
theorem message_media_sender_only :
    (∀ (parseTs : String → Int) (uid : Int) (db : Option (List LedgerRow)) (pages : List Messages),
      ∀ nm ∈ get_message_media_by_id parseTs uid db pages, nm.user_id = uid)
    ∧ get_message_media_by_id exParseTs 7 none [{ messages := [exOtherMessage], has_more := false }] = [] := by
  constructor
  · intro parseTs uid db pages
    rw [get_message_media_by_id]
    generalize highWaterMark db "messages" = hwm
    induction pages with
    | nil =>
      intro nm hnm
      simp [fetchMessagePages] at hnm
    | cons page rest ih =>
      intro nm hnm
      rw [fetchMessagePages] at hnm
      by_cases hstop : (scanMessagePage parseTs uid hwm page.messages).2 = true
      · rw [if_pos hstop] at hnm
        exact scanMessagePage_user parseTs uid hwm page.messages nm hnm
      · rw [if_neg hstop] at hnm
        by_cases hmore : (!page.has_more) = true
        · rw [if_pos hmore] at hnm
          exact scanMessagePage_user parseTs uid hwm page.messages nm hnm
        · rw [if_neg hmore] at hnm
          rcases List.mem_append.mp hnm with h | h
          · exact scanMessagePage_user parseTs uid hwm page.messages nm h
          · exact ih nm h
  · rfl

/-- Witness for message_media_sender_only at a chat page holding one fresh
message from user 7. -/
theorem message_media_sender_only_witness :
    exNM ∈ get_message_media_by_id exParseTs 7 none [{ messages := [exMessage], has_more := false }]
    ∧ exNM.user_id = 7 :=
  ⟨by decide,
    message_media_sender_only.1 exParseTs 7 none [{ messages := [exMessage], has_more := false }]
      exNM (by decide)⟩

/-- C5 counterexample: with user 1's enumeration task failed and user 2's
succeeded, the fan-in re-raises the stored exception, so user 2's results
are not collected: the stage yields an error, not a per-user result set. -/
theorem gather_counterexample :
    gatherResults [(1, .error ()), (2, .ok [exNM])] = .error () := rfl

/-- C5 amended: a transport or decode failure in any remote user's
enumeration task aborts the whole fetch stage of the account: whenever some
completed task holds an error, collecting the results yields that error
rather than the sibling users' media. -/
theorem gather_aborts_on_any_error :
    ∀ results : List (Int × Except Unit (List NormalizedMedia)),
      (∃ p ∈ results, p.2 = .error ()) → gatherResults results = .error () := by
  intro results
  induction results with
  | nil =>
    rintro ⟨p, hp, _⟩
    simp at hp
  | cons a rest ih =>
    rintro ⟨p, hp, he⟩
    obtain ⟨u, e2⟩ := a
    rcases List.mem_cons.mp hp with h | h
    · rw [h] at he
      simp only at he
      rw [he]
      rfl
    · cases e2 with
      | error e =>
        cases e
        rfl
      | ok l =>
        rw [gatherResults, ih ⟨p, h, he⟩]
        rfl

/-- Witness for gather_aborts_on_any_error at the two-user instance. -/
theorem gather_aborts_on_any_error_witness :
    (∃ p ∈ [((1 : Int), (Except.error () : Except Unit (List NormalizedMedia))), (2, .ok [exNM])], p.2 = .error ())
    ∧ gatherResults [(1, .error ()), (2, .ok [exNM])] = .error () :=
  ⟨⟨(1, .error ()), by simp, rfl⟩,
    gather_aborts_on_any_error [(1, .error ()), (2, .ok [exNM])] ⟨(1, .error ()), by simp, rfl⟩⟩

/-- Helper: the newline join of the signing payload equals its plain
concatenation, the form the spec writes. -/
theorem signPayload_eq_spec (r : HeaderRules) (t pq : String) :
    signPayload r t pq = specSignPayload r.static_param t pq := by
  simp [signPayload, specSignPayload, String.intercalate, String.intercalate.go]

/-- Helper: summing the selected digest bytes succeeds and equals the mapped
sum when every index is in range. -/
theorem checksumSum_ok (bytes : List Nat) :
    ∀ idxs : List Int, (∀ i ∈ idxs, 0 ≤ i ∧ i < (bytes.length : Int)) →
      checksumSum bytes idxs = .ok ((idxs.map (fun i => ((bytes.getD i.toNat 0 : Nat) : Int))).sum) := by
  intro idxs
  induction idxs with
  | nil => intro _; rfl
  | cons i rest ih =>
    intro h
    have hi := h i (by simp)
    have hpy : pyIndex bytes i = .ok (bytes.getD i.toNat 0) := by
      have hneg : ¬ i < 0 := by omega
      simp only [pyIndex]
      rw [if_neg hneg, if_pos hi]
    rw [checksumSum, hpy, ih (fun j hj => h j (by simp [hj]))]
    simp

/-- Helper: the checksum of a digest equals the spec-side checksum when the
rules indexes are all in range for the digest. -/
theorem checksumOf_ok (r : HeaderRules) (digest : String)
    (h : ∀ i ∈ r.checksum_indexes, 0 ≤ i ∧ i < ((asciiBytes digest).length : Int)) :
    checksumOf r digest = .ok (specChecksum digest r.checksum_indexes r.checksum_constant) := by
  rw [checksumOf, checksumSum_ok _ _ h]
  rfl

/-- Helper: a successful header generation always carries the time header,
with the exact time string, at position 3. -/
theorem generate_headers_time_entry (sha1hex : String → String) (r : HeaderRules)
    (x_bc cookie user_agent t path query : String) (hs : List (String × String))
    (h : generate_headers sha1hex (some r) x_bc cookie user_agent t path query = .ok hs) :
    hs[3]? = some ("time", t) := by
  rw [generate_headers] at h
  cases hcs : checksumOf r (sha1hex (signPayload r t (urlPath path query))) with
  | error e => simp [hcs] at h
  | ok cs =>
    cases hpf : pyFormat r.format [.s (sha1hex (signPayload r t (urlPath path query))), .i cs] with
    | error e => simp [hcs, hpf] at h
    | ok sign =>
      simp only [hcs, hpf, Except.ok.injEq] at h
      subst h
      by_cases hc : (!(cookie == "")) = true <;> by_cases hu : (!(user_agent == "")) = true <;>
        simp [hc, hu, List.getElem?_append]

/-- C3: the generated header set follows the spec formulas and is sensitive
to the time input.  Conjuncts: (1) the signing payload is staticParam, t,
path+query and the literal zero joined by newlines, exactly the spec's
concatenation; (2) the checksum is the absolute value of the sum of the
digest's ASCII bytes at the checksum indexes plus the checksum constant,
whenever the indexes are in range; (3) a successful generation returns
exactly the header list accept, app-token, sign (the format template applied
to digest and checksum), time (the time string itself) and x-bc, plus the
conditional cookie and user-agent entries; (4) two successful generations
from the same bundle, credentials and path but different time strings are
never byte-identical.  Determinism over equal inputs is definitional here:
the embedding makes the current time an explicit argument, after which
generate_headers is a pure function of (bundle, credentials, path, time). -/
theorem signer_headers_spec :
    (∀ (r : HeaderRules) (t pq : String), signPayload r t pq = specSignPayload r.static_param t pq)
    ∧ (∀ (r : HeaderRules) (digest : String),
        (∀ i ∈ r.checksum_indexes, 0 ≤ i ∧ i < ((asciiBytes digest).length : Int)) →
        checksumOf r digest = .ok (specChecksum digest r.checksum_indexes r.checksum_constant))
    ∧ (∀ (sha1hex : String → String) (r : HeaderRules) (x_bc cookie user_agent t path query : String)
        (cs : Int) (sign : String),
        checksumOf r (sha1hex (signPayload r t (urlPath path query))) = .ok cs →
        pyFormat r.format [.s (sha1hex (signPayload r t (urlPath path query))), .i cs] = .ok sign →
        generate_headers sha1hex (some r) x_bc cookie user_agent t path query =
          .ok (([("accept", "application/json, text/plain, */*"),
                 ("app-token", r.app_token),
                 ("sign", sign),
                 ("time", t),
                 ("x-bc", x_bc)]
                ++ (if !(cookie == "") then [("cookie", cookie)] else []))
                ++ (if !(user_agent == "") then [("user-agent", user_agent)] else [])))
    ∧ (∀ (sha1hex : String → String) (r : HeaderRules)
        (x_bc cookie user_agent path query t₁ t₂ : String)
        (h₁ h₂ : List (String × String)),
        generate_headers sha1hex (some r) x_bc cookie user_agent t₁ path query = .ok h₁ →
        generate_headers sha1hex (some r) x_bc cookie user_agent t₂ path query = .ok h₂ →
        t₁ ≠ t₂ → h₁ ≠ h₂) := by
  refine ⟨signPayload_eq_spec, checksumOf_ok, ?_, ?_⟩
  · intro sha1hex r x_bc cookie user_agent t path query cs sign hcs hpf
    rw [generate_headers]
    simp only [hcs, hpf]
    by_cases hc : (!(cookie == "")) = true <;> by_cases hu : (!(user_agent == "")) = true <;>
      simp [hc, hu]
  · intro sha1hex r x_bc cookie user_agent path query t₁ t₂ h₁ h₂ hg₁ hg₂ hne heq
    have e₁ := generate_headers_time_entry sha1hex r x_bc cookie user_agent t₁ path query h₁ hg₁
    have e₂ := generate_headers_time_entry sha1hex r x_bc cookie user_agent t₂ path query h₂ hg₂
    rw [heq, e₂] at e₁
    exact hne (by simpa using e₁.symm)

/-- Witness for signer_headers_spec: the example bundle, a fixed digest
function, time 100 against time 200, and an empty cookie and user agent. -/
theorem signer_headers_spec_witness :
    (∀ i ∈ exRules.checksum_indexes, 0 ≤ i ∧ i < ((asciiBytes (exSha1 "")).length : Int))
    ∧ checksumOf exRules (exSha1 "") = .ok (specChecksum (exSha1 "") exRules.checksum_indexes exRules.checksum_constant)
    ∧ checksumOf exRules (exSha1 (signPayload exRules "100" (urlPath "/p" "q"))) = .ok 101
    ∧ pyFormat exRules.format [.s (exSha1 (signPayload exRules "100" (urlPath "/p" "q"))), .i 101]
        = .ok "12:0123456789abcdef0123456789abcdef01234567:65:z"
    ∧ generate_headers exSha1 (some exRules) "xb" "" "" "100" "/p" "q" =
        .ok (([("accept", "application/json, text/plain, */*"),
               ("app-token", exRules.app_token),
               ("sign", "12:0123456789abcdef0123456789abcdef01234567:65:z"),
               ("time", "100"),
               ("x-bc", "xb")]
              ++ (if !("" == "") then [("cookie", "")] else []))
              ++ (if !("" == "") then [("user-agent", "")] else []))
    ∧ generate_headers exSha1 (some exRules) "xb" "" "" "100" "/p" "q" =
        .ok [("accept", "application/json, text/plain, */*"),
             ("app-token", "tok"),
             ("sign", "12:0123456789abcdef0123456789abcdef01234567:65:z"),
             ("time", "100"),
             ("x-bc", "xb")]
    ∧ generate_headers exSha1 (some exRules) "xb" "" "" "200" "/p" "q" =
        .ok [("accept", "application/json, text/plain, */*"),
             ("app-token", "tok"),
             ("sign", "12:0123456789abcdef0123456789abcdef01234567:65:z"),
             ("time", "200"),
             ("x-bc", "xb")]
    ∧ [("accept", "application/json, text/plain, */*"),
       ("app-token", ("tok" : String)),
       ("sign", "12:0123456789abcdef0123456789abcdef01234567:65:z"),
       ("time", ("100" : String)),
       ("x-bc", "xb")]
      ≠ [("accept", "application/json, text/plain, */*"),
         ("app-token", "tok"),
         ("sign", "12:0123456789abcdef0123456789abcdef01234567:65:z"),
         ("time", "200"),
         ("x-bc", "xb")] :=
  ⟨by decide,
    signer_headers_spec.2.1 exRules (exSha1 "") (by decide),
    by rfl,
    by rfl,
    signer_headers_spec.2.2.1 exSha1 exRules "xb" "" "" "100" "/p" "q" 101
      "12:0123456789abcdef0123456789abcdef01234567:65:z" (by rfl) (by rfl),
    by rfl,
    by rfl,
    signer_headers_spec.2.2.2 exSha1 exRules "xb" "" "" "/p" "q" "100" "200" _ _
      (by rfl) (by rfl) (by decide)⟩

/-- Helper: the post loop never raises when the post has an author. -/
theorem normalizePostLoop_isOk (post : Post) (hA : post.author.isSome) :
    ∀ ms : List Post.Media, ∃ l, normalizePostLoop post ms = .ok l := by
  intro ms
  obtain ⟨a, ha⟩ := Option.isSome_iff_exists.mp hA
  induction ms with
  | nil => exact ⟨[], rfl⟩
  | cons media rest ih =>
    obtain ⟨tail, htail⟩ := ih
    cases hres : normalizePostLoop post (media :: rest) with
    | ok l => exact ⟨l, rfl⟩
    | error e =>
      by_cases hv : media.can_view
      · simp only [normalizePostLoop, hv, Bool.not_true, Bool.false_eq_true, if_false, ha,
          htail] at hres
        exact Except.noConfusion hres
      · have hv2 : media.can_view = false := by simpa using hv
        simp only [normalizePostLoop, hv2, Bool.not_false, if_true, htail] at hres
        exact Except.noConfusion hres

/-- Helper: the post loop yields nothing when no entry is viewable. -/
theorem normalizePostLoop_no_view (post : Post) :
    ∀ ms : List Post.Media, (∀ m ∈ ms, m.can_view = false) → normalizePostLoop post ms = .ok [] := by
  intro ms
  induction ms with
  | nil => intro _; rfl
  | cons media rest ih =>
    intro h
    have hv := h media (by simp)
    simp only [normalizePostLoop, hv, Bool.not_false, if_true]
    exact ih (fun m hm => h m (by simp [hm]))

/-- Helper: with an author present, normalizing a post succeeds and returns
exactly its viewable-media list. -/
theorem normalize_post_media_ok (post : Post) (stp : Bool) (hA : post.author.isSome) :
    normalize_post_media post stp = .ok (viewableMediaOf stp post) := by
  by_cases hcond : (!(listOptTruthy post.media) || (strOptTruthy post.expired_at && stp)) = true
  · rw [viewableMediaOf]
    simp [normalize_post_media, hcond]
  · have hcond2 : (!(listOptTruthy post.media) || (strOptTruthy post.expired_at && stp)) = false := by
      simpa using hcond
    obtain ⟨l, hl⟩ := normalizePostLoop_isOk post hA (post.media.getD [])
    rw [viewableMediaOf]
    simp [normalize_post_media, hcond2, hl]

/-- Helper: a post failing the enumeration guard contributes no media. -/
theorem viewableMediaOf_guard_false (post : Post) (stp : Bool) (hg : postGuard post = false) :
    viewableMediaOf stp post = [] := by
  rw [postGuard] at hg
  rcases Bool.and_eq_false_iff.mp hg with h | h
  · rw [viewableMediaOf]
    simp [normalize_post_media, h]
  · have hnv : ∀ m ∈ post.media.getD [], m.can_view = false := by
      intro m hm
      rcases List.any_eq_false.mp h m hm with h2
      simpa using h2
    rw [viewableMediaOf, normalize_post_media]
    by_cases hcond : (!(listOptTruthy post.media) || (strOptTruthy post.expired_at && stp)) = true
    · simp [hcond]
    · have hcond2 : (!(listOptTruthy post.media) || (strOptTruthy post.expired_at && stp)) = false := by
        simpa using hcond
      simp [hcond2, normalizePostLoop_no_view post _ hnv]

/-- Helper: a page whose records are all above the cutoff is scanned to the
end and contributes the concatenation of its records' viewable media. -/
theorem scanPostPage_more (parseTs : String → Int) (stp : Bool) (hwm : Int) :
    ∀ page : List Post, (∀ p ∈ page, postTsGT parseTs hwm p = true) →
      (∀ p ∈ page, p.author.isSome) →
      scanPostPage parseTs stp hwm page = .more (page.flatMap (viewableMediaOf stp)) := by
  intro page
  induction page with
  | nil => intro _ _; rfl
  | cons p rest ih =>
    intro hall hA
    have hts := hall p (by simp)
    have hrest := ih (fun q hq => hall q (by simp [hq])) (fun q hq => hA q (by simp [hq]))
    by_cases hg : postGuard p = true
    · have hnorm := normalize_post_media_ok p stp (hA p (by simp))
      simp only [scanPostPage, hts, hg, if_true, hnorm, hrest, List.flatMap_cons]
    · have hg2 : postGuard p = false := by simpa using hg
      have hvm := viewableMediaOf_guard_false p stp hg2
      simp only [scanPostPage, hts, hg2, Bool.false_eq_true, if_true, if_false, hrest,
        List.flatMap_cons, hvm, List.nil_append]

/-- Helper: a page decomposed around its first record at or below the cutoff
is scanned up to that record and halts with the prefix contribution. -/
theorem scanPostPage_halt (parseTs : String → Int) (stp : Bool) (hwm : Int) :
    ∀ (pre : List Post) (x : Post) (suf : List Post),
      (∀ p ∈ pre, postTsGT parseTs hwm p = true) →
      postTsGT parseTs hwm x = false →
      (∀ p ∈ pre, p.author.isSome) →
      scanPostPage parseTs stp hwm (pre ++ x :: suf) = .halt (pre.flatMap (viewableMediaOf stp)) := by
  intro pre
  induction pre with
  | nil =>
    intro x suf _ hx _
    simp only [List.nil_append, scanPostPage, hx, Bool.false_eq_true, if_false, List.flatMap_nil]
  | cons p pre2 ih =>
    intro x suf hall hx hA
    have hts := hall p (by simp)
    have hrest := ih x suf (fun q hq => hall q (by simp [hq])) hx (fun q hq => hA q (by simp [hq]))
    by_cases hg : postGuard p = true
    · have hnorm := normalize_post_media_ok p stp (hA p (by simp))
      simp only [List.cons_append, scanPostPage, hts, hg, if_true, hnorm, List.append_eq, hrest,
        List.flatMap_cons]
    · have hg2 : postGuard p = false := by simpa using hg
      have hvm := viewableMediaOf_guard_false p stp hg2
      simp only [List.cons_append, scanPostPage, hts, hg2, Bool.false_eq_true, if_true, if_false,
        List.append_eq, hrest, List.flatMap_cons, hvm, List.nil_append]

/-- Helper: a list not wholly satisfying a predicate splits at its first
violation. -/
theorem exists_cutoff_split {α : Type} (p : α → Bool) :
    ∀ l : List α, ¬ (∀ a ∈ l, p a = true) →
      ∃ pre x suf, l = pre ++ x :: suf ∧ (∀ a ∈ pre, p a = true) ∧ p x = false := by
  intro l
  induction l with
  | nil => intro h; exact absurd (by simp) h
  | cons a rest ih =>
    intro h
    by_cases ha : p a = true
    · by_cases hrest : ∀ b ∈ rest, p b = true
      · exact absurd (by
          intro b hb
          rcases List.mem_cons.mp hb with h2 | h2
          · rw [h2]; exact ha
          · exact hrest b h2) h
      · obtain ⟨pre, x, suf, heq, hpre, hx⟩ := ih hrest
        refine ⟨a :: pre, x, suf, by simp [heq], ?_, hx⟩
        intro b hb
        rcases List.mem_cons.mp hb with h2 | h2
        · rw [h2]; exact ha
        · exact hpre b h2
    · exact ⟨[], a, rest, by simp, by simp, by simpa using ha⟩

/-- Helper: the offset-paginated posts walk returns exactly the viewable
media of the records newer than the cutoff across the whole stream, and
issues one request per page up to and including the page holding the first
record at or below the cutoff (or one final empty-response request when no
such record exists). -/
theorem fetchPostPages_eq (parseTs : String → Int) (stp : Bool) (hwm : Int) :
    ∀ pages : List (List Post),
      (∀ page ∈ pages, page ≠ []) →
      (∀ p ∈ pages.flatten, p.author.isSome) →
      List.Pairwise (fun a b => parseTs b.posted_at ≤ parseTs a.posted_at) pages.flatten →
      fetchPostPages parseTs stp hwm pages =
        (.ok (allNewMedia parseTs stp hwm pages.flatten),
         pages.findIdx (fun page => page.any (fun p => !(postTsGT parseTs hwm p))) + 1) := by
  intro pages
  induction pages with
  | nil =>
    intro _ _ _
    simp [fetchPostPages, allNewMedia]
  | cons page rest ih =>
    intro hne hA hsort
    have hApage : ∀ p ∈ page, p.author.isSome := fun p hp => hA p (by simp [hp])
    have hnepage : ¬ page.isEmpty = true := by
      have h := hne page (by simp)
      simpa [List.isEmpty_iff] using h
    rw [List.flatten_cons] at hA hsort
    have hsplit := List.pairwise_append.mp hsort
    by_cases hall : ∀ p ∈ page, postTsGT parseTs hwm p = true
    · have hscan := scanPostPage_more parseTs stp hwm page hall hApage
      have hany : page.any (fun p => !(postTsGT parseTs hwm p)) = false := by
        rw [List.any_eq_false]
        intro x hx
        simp [hall x hx]
      have hrec := ih (fun q hq => hne q (by simp [hq]))
        (fun p hp => hA p (by simp [hp]))
        hsplit.2.1
      rw [fetchPostPages, if_neg hnepage, hscan, hrec]
      have hfilter : page.filter (postTsGT parseTs hwm) = page := List.filter_eq_self.mpr hall
      refine Prod.ext ?_ ?_
      · simp only [Except.map, List.flatten_cons, allNewMedia, List.filter_append, hfilter,
          List.flatMap_append]
      · simp only [List.findIdx_cons, hany, cond_false]
    · obtain ⟨pre, x, suf, heq, hpre, hx⟩ := exists_cutoff_split _ page hall
      have hscan : scanPostPage parseTs stp hwm page = .halt (pre.flatMap (viewableMediaOf stp)) := by
        rw [heq]
        exact scanPostPage_halt parseTs stp hwm pre x suf hpre hx
          (fun q hq => hApage q (by simp [heq, hq]))
      have hany : page.any (fun p => !(postTsGT parseTs hwm p)) = true := by
        rw [List.any_eq_true]
        exact ⟨x, by simp [heq], by simp [hx]⟩
      rw [fetchPostPages, if_neg hnepage, hscan]
      have hxle : parseTs x.posted_at ≤ hwm := by
        have := hx
        simp only [postTsGT, decide_eq_false_iff_not, not_lt] at this
        exact this
      have hpairpage : List.Pairwise (fun a b => parseTs b.posted_at ≤ parseTs a.posted_at) page :=
        hsplit.1
      rw [heq] at hpairpage
      have hpairsplit := List.pairwise_append.mp hpairpage
      have hsufle : ∀ s ∈ suf, parseTs s.posted_at ≤ parseTs x.posted_at :=
        (List.pairwise_cons.mp hpairsplit.2.1).1
      have hfiltersuf : List.filter (postTsGT parseTs hwm) (x :: suf) = [] := by
        rw [List.filter_eq_nil_iff]
        intro s hs
        rcases List.mem_cons.mp hs with h2 | h2
        · subst h2
          simp [hx]
        · have : parseTs s.posted_at ≤ hwm := le_trans (hsufle s h2) hxle
          simp [postTsGT]
          omega
      have hfilterrest : List.filter (postTsGT parseTs hwm) rest.flatten = [] := by
        rw [List.filter_eq_nil_iff]
        intro b hb
        have hba : parseTs b.posted_at ≤ parseTs x.posted_at :=
          hsplit.2.2 x (by simp [heq]) b hb
        have : parseTs b.posted_at ≤ hwm := le_trans hba hxle
        simp [postTsGT]
        omega
      have hfilterpre : pre.filter (postTsGT parseTs hwm) = pre := List.filter_eq_self.mpr hpre
      refine Prod.ext ?_ ?_
      · simp only [allNewMedia, List.flatten_cons, List.filter_append, hfilterrest, heq,
          hfiltersuf, hfilterpre, List.append_nil]
      · simp only [List.findIdx_cons, hany, cond_true]

/-- C1: for a posts enumeration over descending-time pages with non-empty
server responses and well-formed records, the offset walk (request i at
offset 10 i) returns exactly the viewable media of the records whose
timestamp exceeds the high-water mark, across the whole delivered stream, as
a prefix in delivery order; and it issues requests only up to the page
holding the first record at or below the mark (one final empty-response
request when no record reaches the mark), never beyond. -/
theorem posts_early_stop (parseTs : String → Int) (stp : Bool) (db : Option (List LedgerRow))
    (pages : List (List Post))
    (hne : ∀ page ∈ pages, page ≠ [])
    (hA : ∀ p ∈ pages.flatten, p.author.isSome)
    (hsort : List.Pairwise (fun a b => parseTs b.posted_at ≤ parseTs a.posted_at) pages.flatten) :
    get_post_media_by_id parseTs stp db pages =
      (.ok (allNewMedia parseTs stp (highWaterMark db "posts") pages.flatten),
       pages.findIdx (fun page => page.any (fun p => !(postTsGT parseTs (highWaterMark db "posts") p))) + 1) := by
  rw [get_post_media_by_id]
  exact fetchPostPages_eq parseTs stp (highWaterMark db "posts") pages hne hA hsort

/-- Witness for posts_early_stop: three one-post pages at timestamps 9, 8
and 1 against a ledgered high-water mark of 5; the walk stops at the third
page and returns the media of the first two records. -/
theorem posts_early_stop_witness :
    (∀ page ∈ [[exPost9], [exPost8], [exPost1]], page ≠ [])
    ∧ (∀ p ∈ ([[exPost9], [exPost8], [exPost1]] : List (List Post)).flatten, p.author.isSome)
    ∧ List.Pairwise (fun a b => exParseTs b.posted_at ≤ exParseTs a.posted_at)
        ([[exPost9], [exPost8], [exPost1]] : List (List Post)).flatten
    ∧ get_post_media_by_id exParseTs false (some exLedger) [[exPost9], [exPost8], [exPost1]] =
        (.ok (allNewMedia exParseTs false (highWaterMark (some exLedger) "posts")
              ([[exPost9], [exPost8], [exPost1]] : List (List Post)).flatten),
         ([[exPost9], [exPost8], [exPost1]] : List (List Post)).findIdx
            (fun page => page.any (fun p => !(postTsGT exParseTs (highWaterMark (some exLedger) "posts") p))) + 1) :=
  ⟨by decide, by decide, by decide,
    posts_early_stop exParseTs false (some exLedger) [[exPost9], [exPost8], [exPost1]]
      (by decide) (by decide) (by decide)⟩

end OnlyFansDL
